import Mathlib

/-!
Verification of the EVMLA stack translation primitives
(`src/evmla/assembly/instruction/stack.rs`) and of the standard-JSON output
source scanner (`era-solc/src/standard_json/output/source.rs`).

The stack translators operate on the EVM legacy-assembly stack held by the
compilation context: an ordered list of elements, each carrying an LLVM
storage handle (an alloca pointer, modelled here as a cell index into an
abstract memory) and an optional provenance label (`original`).  `build_load`
and `build_store` are modelled as reads and writes of that abstract memory.
Rust `usize` subtraction panics on underflow and slice indexing panics out of
bounds; both fatal aborts are modelled by `Option.none`.
-/

/-- One element of the EVMLA virtual stack: the LLVM storage handle
(`to_llvm()`, modelled as an abstract cell index) together with the optional
provenance label (`original`). -/
structure StackElement where
  cell : Nat
  original : Option String
deriving DecidableEq

/-- The part of the compilation context the stack translators touch: the
EVMLA stack (`context.evmla().stack`) and the contents of the stack-field
allocas (`build_load` / `build_store` target memory), indexed by cell. -/
structure EVMLAState where
  stack : List StackElement
  mem : Nat → Nat

/-- `build_store`: writes value `v` into cell `c`. -/
def store (mem : Nat → Nat) (c v : Nat) : Nat → Nat :=
  fun x => if x = c then v else mem x

/-- Models the Rust `usize` expression `height - offset - 1`: subtraction
underflow is a panic (fatal abort), hence `none` whenever `offset ≥ height`. -/
def checkedIndex (height offset : Nat) : Option Nat :=
  if offset + 1 ≤ height then some (height - offset - 1) else none

/-- `stack[i].original = orig` on the element at index `i`, leaving the
storage handle of that slot and all other slots untouched. -/
def setOriginal (stack : List StackElement) (i : Nat) (orig : Option String) :
    List StackElement :=
  match stack[i]? with
  | some e => stack.set i { e with original := orig }
  | none => stack

/-- `dup` from `stack.rs`: reads `context.evmla().stack[height - offset - 1]`,
loads the value stored at that element's stack field, and hands the element's
`original` provenance to the out-parameter.  The returned pair is
`(loaded value, *original)`.  The stack model and the memory are not written:
the function only reads them.  `none` models the fatal index panic. -/
def dup (st : EVMLAState) (offset height : Nat) : Option (Nat × Option String) := do
  let idx ← checkedIndex height offset
  let element ← st.stack[idx]?
  pure (st.mem element.cell, element.original)

/-- `swap` from `stack.rs`: loads the values held by the stack fields of
`stack[height - 1]` and `stack[height - offset - 1]`, exchanges the two
elements' `original` provenance labels, then stores the swap value through the
top pointer and the top value through the swap pointer (in that order).
`none` models the fatal index panic. -/
def swap (st : EVMLAState) (offset height : Nat) : Option EVMLAState := do
  let topIdx ← checkedIndex height 0
  let top_element ← st.stack[topIdx]?
  let top_value := st.mem top_element.cell
  let swapIdx ← checkedIndex height offset
  let swap_element ← st.stack[swapIdx]?
  let swap_value := st.mem swap_element.cell
  let stack1 := setOriginal st.stack topIdx swap_element.original
  let stack2 := setOriginal stack1 swapIdx top_element.original
  let mem1 := store st.mem top_element.cell swap_value
  let mem2 := store mem1 swap_element.cell top_value
  pure { stack := stack2, mem := mem2 }

/-- `pop` from `stack.rs`: emits nothing and touches nothing. -/
def pop (st : EVMLAState) : EVMLAState := st

/-- Value of one digit character under the given radix, as accepted by LLVM's
textual integer parsing used by `const_int_from_string`. -/
def digitValue (radix : Nat) (c : Char) : Option Nat :=
  let v :=
    if '0' ≤ c ∧ c ≤ '9' then some (c.toNat - '0'.toNat)
    else if 'a' ≤ c ∧ c ≤ 'f' then some (c.toNat - 'a'.toNat + 10)
    else if 'A' ≤ c ∧ c ≤ 'F' then some (c.toNat - 'A'.toNat + 10)
    else none
  match v with
  | some d => if d < radix then some d else none
  | none => none

/-- Accumulating digit parse: fails on the first character that is not a
digit of the radix. -/
def parseDigits (radix acc : Nat) : List Char → Option Nat
  | [] => some acc
  | c :: cs => do
    let d ← digitValue radix c
    parseDigits radix (acc * radix + d) cs

/-- Models LLVM's `const_int_from_string` on the 256-bit field type: parses a
non-empty digit string in the given radix and truncates to the native word
width; `none` when the string is malformed (empty or containing a non-digit),
which the callers turn into a panic via `expect`. -/
def const_int_from_string (numBits : Nat) (s : String) (radix : Nat) : Option Nat :=
  if s.isEmpty then none
  else (parseDigits radix 0 s.toList).map (fun n => n % 2 ^ numBits)

/-- `push` from `stack.rs`: hexadecimal parse of the operand on the 256-bit
field type.  The outer `Option` models the `expect("Always valid")` panic
(`none` = fatal abort); on success the function always returns `Ok`, so the
inner `Except` (the `anyhow::Result`) is always `Except.ok`. -/
def push (value : String) : Option (Except String Nat) :=
  (const_int_from_string 256 value 16).map Except.ok

/-- `push_tag` from `stack.rs`: decimal parse of the operand on the 256-bit
field type; same fatal-on-malformed contract as `push`. -/
def push_tag (value : String) : Option (Except String Nat) :=
  (const_int_from_string 256 value 10).map Except.ok

/-- Storage handle of the slot at index `i`. -/
def slotCell (st : EVMLAState) (i : Nat) : Option Nat :=
  (st.stack[i]?).map StackElement.cell

/-- Provenance label of the slot at index `i`. -/
def slotOriginal (st : EVMLAState) (i : Nat) : Option (Option String) :=
  (st.stack[i]?).map StackElement.original

/-- Value currently held by the storage cell of the slot at index `i`. -/
def slotValue (st : EVMLAState) (i : Nat) : Option Nat :=
  (st.stack[i]?).map (fun e => st.mem e.cell)

lemma length_setOriginal (l : List StackElement) (i : Nat) (o : Option String) :
    (setOriginal l i o).length = l.length := by
  unfold setOriginal
  cases h : l[i]? with
  | none => rfl
  | some e => simp [List.length_set]

lemma getElem?_setOriginal (l : List StackElement) (i j : Nat) (o : Option String) :
    (setOriginal l i o)[j]? =
      if j = i then (l[j]?).map (fun e => { e with original := o }) else l[j]? := by
  unfold setOriginal
  cases h : l[i]? with
  | none =>
    have hi : l.length ≤ i := by
      by_contra hlt
      simp [List.getElem?_eq_getElem (Nat.lt_of_not_le hlt)] at h
    by_cases hj : j = i
    · subst hj
      simp [h]
    · simp [hj]
  | some e =>
    have hi : i < l.length := by
      by_contra hge
      simp [List.getElem?_eq_none_iff.mpr (Nat.le_of_not_lt hge)] at h
    rw [List.getElem?_set]
    by_cases hj : j = i
    · subst hj
      simp [hi, h]
    · have hij : ¬ i = j := fun hc => hj hc.symm
      simp [hij, hj]

lemma map_cell_setOriginal (l : List StackElement) (i j : Nat) (o : Option String) :
    ((setOriginal l i o)[j]?).map StackElement.cell = (l[j]?).map StackElement.cell := by
  rw [getElem?_setOriginal]
  by_cases hj : j = i
  · subst hj
    cases l[j]? <;> simp
  · simp [hj]

lemma swap_eq (st : EVMLAState) (offset height : Nat) (et es : StackElement)
    (ho : offset < height)
    (ht : st.stack[height - 1]? = some et)
    (hs : st.stack[height - offset - 1]? = some es) :
    swap st offset height = some
      { stack := setOriginal (setOriginal st.stack (height - 1) es.original)
          (height - offset - 1) et.original,
        mem := store (store st.mem et.cell (st.mem es.cell)) es.cell (st.mem et.cell) } := by
  have h1 : 0 + 1 ≤ height := by omega
  have h2 : offset + 1 ≤ height := ho
  simp [swap, checkedIndex, h1, h2, ht, hs]

/-- C1: for `0 < offset < height` on a stack of that height with pairwise
distinct storage cells, `swap` exchanges the values held by the storage cells
of the slots at indices `height - 1` and `height - offset - 1`, exchanges
those two slots' provenance labels, keeps every slot's storage handle, and
leaves every other slot's value and provenance unchanged. -/
theorem swap_exchanges_values_and_provenance
    (st : EVMLAState) (offset height : Nat)
    (hlen : st.stack.length = height)
    (hpos : 0 < offset) (hlt : offset < height)
    (hcells : ∀ i, i < st.stack.length → ∀ j, j < st.stack.length → i ≠ j →
      slotCell st i ≠ slotCell st j) :
    ∃ st', swap st offset height = some st' ∧
      (∀ i, slotCell st' i = slotCell st i) ∧
      slotValue st' (height - 1) = slotValue st (height - offset - 1) ∧
      slotValue st' (height - offset - 1) = slotValue st (height - 1) ∧
      slotOriginal st' (height - 1) = slotOriginal st (height - offset - 1) ∧
      slotOriginal st' (height - offset - 1) = slotOriginal st (height - 1) ∧
      ∀ i, i ≠ height - 1 → i ≠ height - offset - 1 →
        slotValue st' i = slotValue st i ∧ slotOriginal st' i = slotOriginal st i := by
  have htlt : height - 1 < st.stack.length := by omega
  have hslt : height - offset - 1 < st.stack.length := by omega
  have hts : height - 1 ≠ height - offset - 1 := by omega
  obtain ⟨et, ht⟩ : ∃ e, st.stack[height - 1]? = some e :=
    ⟨_, List.getElem?_eq_getElem htlt⟩
  obtain ⟨es, hs⟩ : ∃ e, st.stack[height - offset - 1]? = some e :=
    ⟨_, List.getElem?_eq_getElem hslt⟩
  have hab : et.cell ≠ es.cell := by
    have := hcells (height - 1) htlt (height - offset - 1) hslt hts
    simp [slotCell, ht, hs] at this
    exact this
  refine ⟨_, swap_eq st offset height et es hlt ht hs, ?_, ?_, ?_, ?_, ?_, ?_⟩
  · intro i
    simp only [slotCell]
    rw [map_cell_setOriginal, map_cell_setOriginal]
  · simp only [slotValue, getElem?_setOriginal, hts, ht, hs]
    simp [store, hab, Ne.symm hab]
  · simp only [slotValue, getElem?_setOriginal, hts, Ne.symm hts, ht, hs]
    simp [store, hab, Ne.symm hab]
  · simp only [slotOriginal, getElem?_setOriginal, hts, ht, hs]
    simp
  · simp only [slotOriginal, getElem?_setOriginal, hts, Ne.symm hts, ht, hs]
    simp
  · intro i hi1 hi2
    by_cases hilt : i < st.stack.length
    · obtain ⟨e, he⟩ : ∃ e, st.stack[i]? = some e := ⟨_, List.getElem?_eq_getElem hilt⟩
      have hc1 : e.cell ≠ et.cell := by
        have := hcells i hilt (height - 1) htlt hi1
        simp [slotCell, he, ht] at this
        exact this
      have hc2 : e.cell ≠ es.cell := by
        have := hcells i hilt (height - offset - 1) hslt hi2
        simp [slotCell, he, hs] at this
        exact this
      constructor
      · simp only [slotValue, getElem?_setOriginal, hi1, hi2, he]
        simp [store, hc1, hc2]
      · simp [slotOriginal, getElem?_setOriginal, hi1, hi2, he]
    · have hnone : st.stack[i]? = none := List.getElem?_eq_none_iff.mpr (by omega)
      constructor <;>
        simp [slotValue, slotOriginal, getElem?_setOriginal, hi1, hi2, hnone]

lemma list_ext_getElem? {α : Type} (l m : List α) (h : ∀ i : Nat, l[i]? = m[i]?) :
    l = m :=
  List.ext_get?_iff.mpr (fun n => by
    rw [List.get?_eq_getElem?, List.get?_eq_getElem?]
    exact h n)

/-- C2: for `offset < height` on a stack of that height, `dup` reads exactly
the slot at index `height - offset - 1` and returns the value currently stored
in that slot's cell paired with that slot's provenance label (the
out-parameter `original`).  `dup` only reads the state: the embedding returns
the pair without producing a new state, so no slot's storage handle, stored
value, or provenance changes. -/
theorem dup_reads_exactly_target_slot (st : EVMLAState) (offset height : Nat)
    (hlen : st.stack.length = height) (hlt : offset < height) :
    ∃ e, st.stack[height - offset - 1]? = some e ∧
      dup st offset height = some (st.mem e.cell, e.original) := by
  have hslt : height - offset - 1 < st.stack.length := by omega
  obtain ⟨e, he⟩ : ∃ e, st.stack[height - offset - 1]? = some e :=
    ⟨_, List.getElem?_eq_getElem hslt⟩
  refine ⟨e, he, ?_⟩
  have h2 : offset + 1 ≤ height := hlt
  simp [dup, checkedIndex, h2, he]

/-- C3: any `dup` or `swap` call with `offset ≥ height` hits the `usize`
underflow in `height - offset - 1` (or an out-of-bounds stack index) and
aborts: both translators return `none`, never a value read from a wrong
slot. -/
theorem dup_swap_underflow_is_fatal (st : EVMLAState) (offset height : Nat)
    (hof : height ≤ offset) :
    dup st offset height = none ∧ swap st offset height = none := by
  have hno : checkedIndex height offset = none := by
    simp only [checkedIndex, ite_eq_right_iff]
    intro hc
    omega
  constructor
  · simp [dup, hno]
  · by_cases h0 : height = 0
    · subst h0
      simp [swap, checkedIndex]
    · have ht0 : checkedIndex height 0 = some (height - 1) := by
        simp only [checkedIndex]
        rw [if_pos (by omega)]
        simp
      simp only [swap, ht0, hno, Option.bind_eq_bind, Option.some_bind, Option.none_bind]
      cases st.stack[height - 1]? <;> simp

/-- C4: for `0 < offset < height` on a stack of that height, applying `swap`
twice in succession restores every slot (storage handle and provenance) and
every memory cell to its state before the first swap. -/
theorem swap_is_self_inverse (st : EVMLAState) (offset height : Nat)
    (hlen : st.stack.length = height) (hpos : 0 < offset) (hlt : offset < height) :
    ∃ st1 st2, swap st offset height = some st1 ∧ swap st1 offset height = some st2 ∧
      st2.stack = st.stack ∧ ∀ c, st2.mem c = st.mem c := by
  have htlt : height - 1 < st.stack.length := by omega
  have hslt : height - offset - 1 < st.stack.length := by omega
  have hts : height - 1 ≠ height - offset - 1 := by omega
  obtain ⟨et, ht⟩ : ∃ e, st.stack[height - 1]? = some e :=
    ⟨_, List.getElem?_eq_getElem htlt⟩
  obtain ⟨es, hs⟩ : ∃ e, st.stack[height - offset - 1]? = some e :=
    ⟨_, List.getElem?_eq_getElem hslt⟩
  have h1 := swap_eq st offset height et es hlt ht hs
  set st1 : EVMLAState :=
    { stack := setOriginal (setOriginal st.stack (height - 1) es.original)
        (height - offset - 1) et.original,
      mem := store (store st.mem et.cell (st.mem es.cell)) es.cell
        (st.mem et.cell) } with hst1
  have ht1 : st1.stack[height - 1]? = some { et with original := es.original } := by
    simp [hst1, getElem?_setOriginal, hts, Ne.symm hts, ht]
  have hs1 : st1.stack[height - offset - 1]? = some { es with original := et.original } := by
    simp [hst1, getElem?_setOriginal, hts, Ne.symm hts, hs]
  have h2 := swap_eq st1 offset height { et with original := es.original }
    { es with original := et.original } hlt ht1 hs1
  refine ⟨st1, _, h1, h2, ?_, ?_⟩
  · apply list_ext_getElem?
    intro j
    simp only [hst1, getElem?_setOriginal]
    by_cases hjs : j = height - offset - 1 <;> by_cases hjt : j = height - 1
    · omega
    · subst hjs
      simp [hts, Ne.symm hts, hs]
    · subst hjt
      simp [hts, Ne.symm hts, ht]
    · simp [hjs, hjt]
  · intro c
    simp only [hst1, store]
    by_cases hba : et.cell = es.cell <;>
      by_cases hcb : c = es.cell <;> by_cases hca : c = et.cell <;>
      simp_all

/-- C5: a single `swap(0, height)` on a stack of height `height ≥ 1` leaves
every slot and every memory cell unchanged, even though the source and
destination storage cells coincide: the two loads read the same cell and the
two stores write back that same value. -/
theorem swap_zero_is_noop (st : EVMLAState) (height : Nat)
    (hpos : 1 ≤ height) (hlen : st.stack.length = height) :
    ∃ st', swap st 0 height = some st' ∧ st'.stack = st.stack ∧
      ∀ c, st'.mem c = st.mem c := by
  have htlt : height - 1 < st.stack.length := by omega
  obtain ⟨et, ht⟩ : ∃ e, st.stack[height - 1]? = some e :=
    ⟨_, List.getElem?_eq_getElem htlt⟩
  have h1 := swap_eq st 0 height et et (by omega) ht (by simpa using ht)
  refine ⟨_, h1, ?_, ?_⟩
  · apply list_ext_getElem?
    intro j
    simp only [getElem?_setOriginal, Nat.sub_zero]
    by_cases hjt : j = height - 1
    · subst hjt
      simp [ht]
    · simp [hjt]
  · intro c
    simp only [store]
    by_cases hca : c = et.cell <;> simp [hca]

/-- A concrete three-slot stack used by the witnesses: distinct storage cells
0, 1, 2 and memory holding `10 + cell`. -/
def stExample : EVMLAState :=
  { stack := [⟨0, some "a"⟩, ⟨1, none⟩, ⟨2, some "c"⟩],
    mem := fun c => c + 10 }

theorem swap_exchanges_values_and_provenance_witness :
    ∃ st', swap stExample 1 3 = some st' ∧
      slotValue st' 2 = slotValue stExample 1 ∧
      slotOriginal st' 2 = slotOriginal stExample 1 := by
  obtain ⟨st', hsw, -, hv, -, ho, -, -⟩ :=
    swap_exchanges_values_and_provenance stExample 1 3 (by decide) (by decide)
      (by decide) (by decide)
  exact ⟨st', hsw, hv, ho⟩

theorem dup_reads_exactly_target_slot_witness :
    ∃ e, stExample.stack[1]? = some e ∧
      dup stExample 1 3 = some (stExample.mem e.cell, e.original) :=
  dup_reads_exactly_target_slot stExample 1 3 (by decide) (by decide)

theorem dup_swap_underflow_is_fatal_witness :
    dup stExample 5 3 = none ∧ swap stExample 5 3 = none :=
  dup_swap_underflow_is_fatal stExample 5 3 (by decide)

theorem swap_is_self_inverse_witness :
    ∃ st1 st2, swap stExample 2 3 = some st1 ∧ swap st1 2 3 = some st2 ∧
      st2.stack = stExample.stack ∧ ∀ c, st2.mem c = stExample.mem c :=
  swap_is_self_inverse stExample 2 3 (by decide) (by decide) (by decide)

theorem swap_zero_is_noop_witness :
    ∃ st', swap stExample 0 3 = some st' ∧ st'.stack = stExample.stack ∧
      ∀ c, st'.mem c = stExample.mem c :=
  swap_zero_is_noop stExample 3 (by decide) (by decide)

/-- C6: `push` parses its operand as hexadecimal and `push_tag` as decimal,
each producing a constant of the native 256-bit word width: `push "1a"`
returns the integer 26 and `push_tag "12"` returns the integer 12.  A
malformed operand (such as `"zz"` in hexadecimal, or `"1a"` in decimal) makes
the translator abort fatally (`none`, the `expect` panic) — the translators
never return a recoverable `Except.error`. -/
theorem push_parses_hex_and_push_tag_parses_dec :
    push "1a" = some (Except.ok 26) ∧
    push_tag "12" = some (Except.ok 12) ∧
    push "zz" = none ∧
    push_tag "1a" = none ∧
    (∀ s, ((push s).getD (Except.ok 0)).isOk = true) ∧
    (∀ s, ((push_tag s).getD (Except.ok 0)).isOk = true) := by
  refine ⟨rfl, rfl, rfl, rfl, ?_, ?_⟩
  · intro s
    cases h : const_int_from_string 256 s 16 <;> simp [push, h, Except.isOk, Except.toBool]
  · intro s
    cases h : const_int_from_string 256 s 10 <;> simp [push_tag, h, Except.isOk, Except.toBool]

/-!
The standard-JSON output source scanner.  `serde_json::Value` is modelled by
`Json`; object field lookup (`Map::get` / `Value::get`) by an association-list
lookup.  The `solc` version wrapper's `default` field is a `semver::Version`,
modelled for release versions as a major/minor/patch triple with
lexicographic order.
-/

/-- A `serde_json::Value`. -/
inductive Json where
  | null
  | bool (b : Bool)
  | num (n : Int)
  | str (s : String)
  | arr (elems : List Json)
  | obj (fields : List (String × Json))

/-- `Value::as_object`. -/
def Json.asObject : Json → Option (List (String × Json))
  | .obj fields => some fields
  | _ => none

/-- `Value::as_str`. -/
def Json.asStr : Json → Option String
  | .str s => some s
  | _ => none

/-- `Value::as_array`. -/
def Json.asArray : Json → Option (List Json)
  | .arr elems => some elems
  | _ => none

/-- `Value::get(key)`: field lookup on an object, `None` on every other
value. -/
def Json.get : Json → String → Option Json
  | .obj fields, key => fields.lookup key
  | _, _ => none

/-- A release `semver::Version` (the `default` field of the solc `Version`
wrapper); solc versions carry no prerelease or build metadata. -/
structure SemVer where
  major : Nat
  minor : Nat
  patch : Nat
deriving DecidableEq

/-- `semver` ordering on release versions: lexicographic on
major/minor/patch. -/
def SemVer.lt (a b : SemVer) : Bool :=
  if a.major ≠ b.major then Nat.blt a.major b.major
  else if a.minor ≠ b.minor then Nat.blt a.minor b.minor
  else Nat.blt a.patch b.patch

/-- Modelled from the spec: the standard JSON output error constructors
(`error_send_and_transfer`, `error_runtime_code`, `warning_tx_origin`) live in
the repository's `standard_json::output::error` module, which is not among the
provided sources; each is modelled as a tagged message carrying the `src`
location (`ast.get("src").and_then(as_str)`) it receives. -/
inductive Message where
  | sendTransfer (src : Option String)
  | runtimeCode (src : Option String)
  | txOrigin (src : Option String)
deriving DecidableEq

/-- The suppressible error kinds referenced by `get_messages`
(`standard_json::input::settings::error_type`, not among the provided
sources). -/
inductive ErrorType where
  | sendTransfer
deriving DecidableEq

/-- The suppressible warning kinds referenced by `get_messages`
(`standard_json::input::settings::warning_type`, not among the provided
sources). -/
inductive WarningType where
  | txOrigin
deriving DecidableEq

/-- `pat.isPrefixOf` at some position of the second list: Rust
`str::contains` for an ASCII pattern. -/
def charsContain (pat : List Char) : List Char → Bool
  | [] => pat.isEmpty
  | c :: cs => pat.isPrefixOf (c :: cs) || charsContain pat cs

/-- Rust `str::contains(pat)` (substring containment; byte positions align
with character positions because the patterns used are ASCII). -/
def strContainsSubstr (s pat : String) : Bool :=
  charsContain pat.toList s.toList

/-- Rust `str::starts_with(pat)` (a character-list prefix is the same thing
as a byte prefix). -/
def strStartsWith (s pre : String) : Bool :=
  pre.toList.isPrefixOf s.toList

/-- `Source::check_send_and_transfer`: flags a `FunctionCall` whose callee is
a `MemberAccess` named `send` or `transfer` on a receiver whose type
identifier is `t_address_payable` — or, before solc 0.5.0, also `t_address`. -/
def check_send_and_transfer (solc_version : SemVer) (ast : Json) :
    Option Message :=
  (ast.asObject).bind fun o =>
  ((o.lookup "nodeType").bind Json.asStr).bind fun nodeType =>
  if nodeType = "FunctionCall" then
    ((o.lookup "expression").bind Json.asObject).bind fun expression =>
    ((expression.lookup "nodeType").bind Json.asStr).bind fun exprNodeType =>
    if exprNodeType = "MemberAccess" then
      ((expression.lookup "memberName").bind Json.asStr).bind fun member_name =>
      if ["send", "transfer"].contains member_name then
        ((expression.lookup "expression").bind Json.asObject).bind fun receiver =>
        ((receiver.lookup "typeDescriptions").bind Json.asObject).bind
          fun type_descriptions =>
        ((type_descriptions.lookup "typeIdentifier").bind Json.asStr).bind
          fun type_identifier =>
        let affected_types :=
          if SemVer.lt solc_version ⟨0, 5, 0⟩
          then ["t_address_payable", "t_address"]
          else ["t_address_payable"]
        if affected_types.contains type_identifier then
          (o.lookup "src").bind fun src =>
          some (Message.sendTransfer src.asStr)
        else none
      else none
    else none
  else none

/-- `Source::check_runtime_code`: flags a `MemberAccess` named `runtimeCode`
on a receiver whose type identifier starts with `t_magic_meta_type`. -/
def check_runtime_code (ast : Json) : Option Message :=
  (ast.asObject).bind fun o =>
  ((o.lookup "nodeType").bind Json.asStr).bind fun nodeType =>
  if nodeType = "MemberAccess" then
    ((o.lookup "memberName").bind Json.asStr).bind fun member_name =>
    if member_name = "runtimeCode" then
      ((o.lookup "expression").bind Json.asObject).bind fun expression =>
      ((expression.lookup "typeDescriptions").bind Json.asObject).bind
        fun type_descriptions =>
      ((type_descriptions.lookup "typeIdentifier").bind Json.asStr).bind
        fun type_identifier =>
      if strStartsWith type_identifier "t_magic_meta_type" then
        (o.lookup "src").bind fun src =>
        some (Message.runtimeCode src.asStr)
      else none
    else none
  else none

/-- `Source::check_tx_origin`: flags a `MemberAccess` named `origin` on an
`Identifier` named `tx`. -/
def check_tx_origin (ast : Json) : Option Message :=
  (ast.asObject).bind fun o =>
  ((o.lookup "nodeType").bind Json.asStr).bind fun nodeType =>
  if nodeType = "MemberAccess" then
    ((o.lookup "memberName").bind Json.asStr).bind fun member_name =>
    if member_name = "origin" then
      ((o.lookup "expression").bind Json.asObject).bind fun expression =>
      ((expression.lookup "nodeType").bind Json.asStr).bind fun exprNodeType =>
      if exprNodeType = "Identifier" then
        ((expression.lookup "name").bind Json.asStr).bind fun name =>
        if name = "tx" then
          (o.lookup "src").bind fun src =>
          some (Message.txOrigin src.asStr)
        else none
      else none
    else none
  else none

/-- `Source::check_assembly_origin`: before solc 0.6.0 an `InlineAssembly`
node whose textual `operations` contain the substring `origin()`; from 0.6.0
on a `YulFunctionCall` node whose `functionName.name` is `origin`.  Both arms
emit the same tx-origin warning. -/
def check_assembly_origin (solc_version : SemVer) (ast : Json) :
    Option Message :=
  (ast.asObject).bind fun o =>
  ((o.lookup "nodeType").bind Json.asStr).bind fun nodeType =>
  (if nodeType = "InlineAssembly" ∧ SemVer.lt solc_version ⟨0, 6, 0⟩ then
    ((o.lookup "operations").bind Json.asStr).bind fun operations =>
    if strContainsSubstr operations "origin()" then some () else none
  else if nodeType = "YulFunctionCall" ∧ ¬ SemVer.lt solc_version ⟨0, 6, 0⟩ then
    ((o.lookup "functionName").bind Json.asObject).bind fun functionName =>
    ((functionName.lookup "name").bind Json.asStr).bind fun name =>
    if name = "origin" then some () else none
  else none).bind fun _ =>
  (o.lookup "src").bind fun src =>
  some (Message.txOrigin src.asStr)

mutual

/-- `Source::get_messages`: runs the four checks on the node (the send/transfer
check only when the `SendTransfer` error kind is not suppressed, the two
origin checks only when the `TxOrigin` warning kind is not suppressed, the
runtime-code check unconditionally), then recurses into every element of an
array node and every field value of an object node. -/
def get_messages (ast : Json) (solc_version : SemVer)
    (suppressed_errors : List ErrorType)
    (suppressed_warnings : List WarningType) : List Message :=
  (if suppressed_errors.contains ErrorType.sendTransfer then []
   else (check_send_and_transfer solc_version ast).toList) ++
  (check_runtime_code ast).toList ++
  (if suppressed_warnings.contains WarningType.txOrigin then []
   else (check_assembly_origin solc_version ast).toList ++
     (check_tx_origin ast).toList) ++
  (match ast with
   | .arr elems =>
     get_messages_of_list elems solc_version suppressed_errors suppressed_warnings
   | .obj fields =>
     get_messages_of_fields fields solc_version suppressed_errors suppressed_warnings
   | _ => [])
termination_by sizeOf ast

/-- The `for element in array` recursion of `get_messages`. -/
def get_messages_of_list (elems : List Json) (solc_version : SemVer)
    (suppressed_errors : List ErrorType)
    (suppressed_warnings : List WarningType) : List Message :=
  match elems with
  | [] => []
  | x :: xs =>
    get_messages x solc_version suppressed_errors suppressed_warnings ++
    get_messages_of_list xs solc_version suppressed_errors suppressed_warnings
termination_by sizeOf elems

/-- The `for (_key, value) in object` recursion of `get_messages`. -/
def get_messages_of_fields (fields : List (String × Json)) (solc_version : SemVer)
    (suppressed_errors : List ErrorType)
    (suppressed_warnings : List WarningType) : List Message :=
  match fields with
  | [] => []
  | (_, x) :: xs =>
    get_messages x solc_version suppressed_errors suppressed_warnings ++
    get_messages_of_fields xs solc_version suppressed_errors suppressed_warnings
termination_by sizeOf fields

end

/-- `solc --standard-json` output `Source`: an id and an optional AST. -/
structure Source where
  id : Nat
  ast : Option Json

/-- The filter of `Source::last_contract_name`: a node contributes its `name`
string exactly when its `nodeType` is `ContractDefinition` and it carries a
string `name`. -/
def contractName (node : Json) : Option String :=
  match (node.get "nodeType").bind Json.asStr with
  | some "ContractDefinition" => (node.get "name").bind Json.asStr
  | _ => none

/-- `Source::last_contract_name`: the name of the last `ContractDefinition`
node (with a string name) of the AST's `nodes` array; the three `anyhow`
errors are modelled by `Except.error` with the source's message strings. -/
def last_contract_name (s : Source) : Except String String :=
  match s.ast with
  | none => .error "The AST is empty"
  | some ast =>
    match (ast.get "nodes").bind Json.asArray with
    | none => .error "The last contract cannot be found in an empty list of nodes"
    | some nodes =>
      match (nodes.filterMap contractName).getLast? with
      | none => .error "The last contract not found in the AST"
      | some name => .ok name

lemma asStr_eq_some (j : Json) (s : String) : j.asStr = some s ↔ j = .str s := by
  cases j <;> simp [Json.asStr]

lemma asObject_eq_some (j : Json) (fs : List (String × Json)) :
    j.asObject = some fs ↔ j = .obj fs := by
  cases j <;> simp [Json.asObject]

lemma asArray_eq_some (j : Json) (xs : List Json) :
    j.asArray = some xs ↔ j = .arr xs := by
  cases j <;> simp [Json.asArray]

lemma asObject_obj (fs : List (String × Json)) :
    (Json.obj fs).asObject = some fs := rfl

lemma get_obj (fs : List (String × Json)) (k : String) :
    (Json.obj fs).get k = fs.lookup k := rfl

lemma get_obj_of_eq_some {j : Json} {k : String} {x : Json}
    (h : j.get k = some x) : ∃ fs, j = Json.obj fs := by
  cases j <;> simp [Json.get] at h ⊢

/-- The send/transfer pattern in the words of the specification: a
`FunctionCall` node whose `expression` is a `MemberAccess` with member name
`send` or `transfer`, whose receiver's type identifier is
`t_address_payable` — or also `t_address` when the compiler version is below
0.5.0. -/
def SendTransferShape (v : SemVer) (ast : Json) : Prop :=
  ast.get "nodeType" = some (.str "FunctionCall") ∧
  ∃ expr, ast.get "expression" = some expr ∧
    expr.get "nodeType" = some (.str "MemberAccess") ∧
    (expr.get "memberName" = some (.str "send") ∨
      expr.get "memberName" = some (.str "transfer")) ∧
    ∃ recv tds tid, expr.get "expression" = some recv ∧
      recv.get "typeDescriptions" = some tds ∧
      tds.get "typeIdentifier" = some (.str tid) ∧
      (tid = "t_address_payable" ∨
        (tid = "t_address" ∧ SemVer.lt v ⟨0, 5, 0⟩ = true))

lemma check_send_and_transfer_isSome_iff (v : SemVer) (ast : Json) (srcJ : Json)
    (hsrc : ast.get "src" = some srcJ) :
    (check_send_and_transfer v ast).isSome = true ↔ SendTransferShape v ast := by
  cases ast with
  | obj fields =>
    simp only [check_send_and_transfer, SendTransferShape, get_obj, asObject_obj,
      Option.some_bind] at hsrc ⊢
    by_cases hlt : SemVer.lt v ⟨0, 5, 0⟩ = true <;>
      simp [Option.isSome_iff_exists, Option.bind_eq_some, asStr_eq_some,
        asObject_eq_some, Option.ite_none_right_eq_some, hsrc, hlt, get_obj] <;>
      constructor
    all_goals intro h
    · obtain ⟨a, nt, hnt, rfl, e2, he2, n3, hn3, rfl, mn, hmn, hsend, r5, hr5,
        t6, ht6, tid, htid, hta, -⟩ := h
      refine ⟨hnt, Json.obj e2, he2, by simpa [get_obj] using hn3, ?_,
        Json.obj r5, by simpa [get_obj] using hr5, Json.obj t6,
        by simpa [get_obj] using ht6, tid, by simpa [get_obj] using htid, hta⟩
      rcases hsend with h4 | h4 <;> subst h4
      · exact Or.inl (by simpa [get_obj] using hmn)
      · exact Or.inr (by simpa [get_obj] using hmn)
    · obtain ⟨hnt, expr, hexpr, hent, hmn, recv, hrecv, tds, htds, tid, htid, hta⟩ := h
      obtain ⟨e2, rfl⟩ := get_obj_of_eq_some hent
      obtain ⟨r5, rfl⟩ := get_obj_of_eq_some htds
      obtain ⟨t6, rfl⟩ := get_obj_of_eq_some htid
      refine ⟨Message.sendTransfer srcJ.asStr, "FunctionCall", hnt, rfl, e2, hexpr,
        "MemberAccess", by simpa [get_obj] using hent, rfl, ?_⟩
      rcases hmn with hmn | hmn
      · exact ⟨"send", by simpa [get_obj] using hmn, Or.inl rfl, r5,
          by simpa [get_obj] using hrecv, t6, by simpa [get_obj] using htds,
          tid, by simpa [get_obj] using htid, hta, rfl⟩
      · exact ⟨"transfer", by simpa [get_obj] using hmn, Or.inr rfl, r5,
          by simpa [get_obj] using hrecv, t6, by simpa [get_obj] using htds,
          tid, by simpa [get_obj] using htid, hta, rfl⟩
    · obtain ⟨a, nt, hnt, rfl, e2, he2, n3, hn3, rfl, mn, hmn, hsend, r5, hr5,
        t6, ht6, tid, htid, rfl, -⟩ := h
      refine ⟨hnt, Json.obj e2, he2, by simpa [get_obj] using hn3, ?_,
        Json.obj r5, by simpa [get_obj] using hr5, Json.obj t6,
        by simpa [get_obj] using ht6, by simpa [get_obj] using htid⟩
      rcases hsend with h4 | h4 <;> subst h4
      · exact Or.inl (by simpa [get_obj] using hmn)
      · exact Or.inr (by simpa [get_obj] using hmn)
    · obtain ⟨hnt, expr, hexpr, hent, hmn, recv, hrecv, tds, htds, htid⟩ := h
      obtain ⟨e2, rfl⟩ := get_obj_of_eq_some hent
      obtain ⟨r5, rfl⟩ := get_obj_of_eq_some htds
      obtain ⟨t6, rfl⟩ := get_obj_of_eq_some htid
      refine ⟨Message.sendTransfer srcJ.asStr, "FunctionCall", hnt, rfl, e2, hexpr,
        "MemberAccess", by simpa [get_obj] using hent, rfl, ?_⟩
      rcases hmn with hmn | hmn
      · exact ⟨"send", by simpa [get_obj] using hmn, Or.inl rfl, r5,
          by simpa [get_obj] using hrecv, t6, by simpa [get_obj] using htds,
          "t_address_payable", by simpa [get_obj] using htid, rfl, rfl⟩
      · exact ⟨"transfer", by simpa [get_obj] using hmn, Or.inr rfl, r5,
          by simpa [get_obj] using hrecv, t6, by simpa [get_obj] using htds,
          "t_address_payable", by simpa [get_obj] using htid, rfl, rfl⟩
  | null => simp [Json.get] at hsrc
  | bool b => simp [Json.get] at hsrc
  | num n => simp [Json.get] at hsrc
  | str s => simp [Json.get] at hsrc
  | arr elems => simp [Json.get] at hsrc

lemma check_runtime_code_message {ast : Json} {m : Message}
    (h : check_runtime_code ast = some m) : ∃ s, m = Message.runtimeCode s := by
  cases ast with
  | obj fields =>
    simp only [check_runtime_code, asObject_obj, Option.some_bind] at h
    simp only [Option.bind_eq_some, asStr_eq_some, asObject_eq_some,
      Option.ite_none_right_eq_some, Option.some.injEq] at h
    obtain ⟨-, -, -, -, -, -, -, -, -, -, -, -, -, src, -, hm⟩ := h
    exact ⟨src.asStr, hm.symm⟩
  | null => exact Option.noConfusion h
  | bool b => exact Option.noConfusion h
  | num n => exact Option.noConfusion h
  | str s => exact Option.noConfusion h
  | arr elems => exact Option.noConfusion h


lemma check_send_and_transfer_message {v : SemVer} {ast : Json} {m : Message}
    (h : check_send_and_transfer v ast = some m) : ∃ s, m = Message.sendTransfer s := by
  cases ast with
  | obj fields =>
    simp only [check_send_and_transfer, asObject_obj, Option.some_bind] at h
    simp only [Option.bind_eq_some, asStr_eq_some, asObject_eq_some,
      Option.ite_none_right_eq_some, Option.some.injEq] at h
    obtain ⟨-, -, -, -, -, -, -, -, -, -, -, -, -, -, -, -, -, -, src, -, hm⟩ := h
    exact ⟨src.asStr, hm.symm⟩
  | null => exact Option.noConfusion h
  | bool b => exact Option.noConfusion h
  | num n => exact Option.noConfusion h
  | str s => exact Option.noConfusion h
  | arr elems => exact Option.noConfusion h

lemma check_tx_origin_message {ast : Json} {m : Message}
    (h : check_tx_origin ast = some m) : ∃ s, m = Message.txOrigin s := by
  cases ast with
  | obj fields =>
    simp only [check_tx_origin, asObject_obj, Option.some_bind] at h
    simp only [Option.bind_eq_some, asStr_eq_some, asObject_eq_some,
      Option.ite_none_right_eq_some, Option.some.injEq] at h
    obtain ⟨-, -, -, -, -, -, -, -, -, -, -, -, -, -, src, -, hm⟩ := h
    exact ⟨src.asStr, hm.symm⟩
  | null => exact Option.noConfusion h
  | bool b => exact Option.noConfusion h
  | num n => exact Option.noConfusion h
  | str s => exact Option.noConfusion h
  | arr elems => exact Option.noConfusion h

lemma check_assembly_origin_message {v : SemVer} {ast : Json} {m : Message}
    (h : check_assembly_origin v ast = some m) : ∃ s, m = Message.txOrigin s := by
  cases ast with
  | obj fields =>
    simp only [check_assembly_origin, asObject_obj, Option.some_bind] at h
    simp only [Option.bind_eq_some, asStr_eq_some, asObject_eq_some,
      Option.ite_none_right_eq_some, Option.some.injEq] at h
    obtain ⟨-, -, -, -, src, -, hm⟩ := h
    exact ⟨src.asStr, hm.symm⟩
  | null => exact Option.noConfusion h
  | bool b => exact Option.noConfusion h
  | num n => exact Option.noConfusion h
  | str s => exact Option.noConfusion h
  | arr elems => exact Option.noConfusion h

lemma mem_get_messages_of_list {m : Message} (xs : List Json) (v : SemVer)
    (se : List ErrorType) (sw : List WarningType) :
    m ∈ get_messages_of_list xs v se sw ↔ ∃ x ∈ xs, m ∈ get_messages x v se sw := by
  induction xs with
  | nil => simp [get_messages_of_list]
  | cons x xs ih =>
    rw [get_messages_of_list]
    simp [ih]

lemma mem_get_messages_of_fields {m : Message} (fs : List (String × Json))
    (v : SemVer) (se : List ErrorType) (sw : List WarningType) :
    m ∈ get_messages_of_fields fs v se sw ↔
      ∃ kv ∈ fs, m ∈ get_messages kv.2 v se sw := by
  induction fs with
  | nil => simp [get_messages_of_fields]
  | cons kv fs ih =>
    obtain ⟨k, x⟩ := kv
    rw [get_messages_of_fields]
    simp [ih]


/-- One node's contribution within another: `x` is an element of an array node
or a field value of an object node. -/
def JsonChild (x ast : Json) : Prop :=
  (∃ elems, ast = Json.arr elems ∧ x ∈ elems) ∨
  (∃ fields k, ast = Json.obj fields ∧ (k, x) ∈ fields)

lemma JsonChild.sizeOf_lt {x ast : Json} (h : JsonChild x ast) :
    sizeOf x < sizeOf ast := by
  rcases h with ⟨elems, rfl, hx⟩ | ⟨fields, k, rfl, hx⟩
  · have := List.sizeOf_lt_of_mem hx
    simp only [Json.arr.sizeOf_spec]
    omega
  · have := List.sizeOf_lt_of_mem hx
    simp only [Prod.mk.sizeOf_spec] at this
    simp only [Json.obj.sizeOf_spec]
    omega

lemma mem_get_messages_cases {m : Message} {ast : Json} {v : SemVer}
    {se : List ErrorType} {sw : List WarningType}
    (h : m ∈ get_messages ast v se sw) :
    (se.contains ErrorType.sendTransfer = false ∧
      check_send_and_transfer v ast = some m) ∨
    check_runtime_code ast = some m ∨
    (sw.contains WarningType.txOrigin = false ∧
      (check_assembly_origin v ast = some m ∨ check_tx_origin ast = some m)) ∨
    ∃ x, JsonChild x ast ∧ m ∈ get_messages x v se sw := by
  have main :
      m ∈ ((if se.contains ErrorType.sendTransfer = true then []
             else (check_send_and_transfer v ast).toList) ++
           (check_runtime_code ast).toList ++
           (if sw.contains WarningType.txOrigin = true then []
             else (check_assembly_origin v ast).toList ++
               (check_tx_origin ast).toList)) →
      (se.contains ErrorType.sendTransfer = false ∧
        check_send_and_transfer v ast = some m) ∨
      check_runtime_code ast = some m ∨
      (sw.contains WarningType.txOrigin = false ∧
        (check_assembly_origin v ast = some m ∨ check_tx_origin ast = some m)) := by
    intro hmem
    simp only [List.mem_append] at hmem
    rcases hmem with (h1 | h2) | h3
    · by_cases hc : se.contains ErrorType.sendTransfer = true
      · rw [if_pos hc] at h1
        simp at h1
      · rw [if_neg hc] at h1
        simp only [Option.mem_toList, Option.mem_def] at h1
        exact Or.inl ⟨Bool.not_eq_true _ ▸ hc, h1⟩
    · simp only [Option.mem_toList, Option.mem_def] at h2
      exact Or.inr (Or.inl h2)
    · by_cases hw : sw.contains WarningType.txOrigin = true
      · rw [if_pos hw] at h3
        simp at h3
      · rw [if_neg hw] at h3
        rcases List.mem_append.mp h3 with h3 | h3 <;>
          simp only [Option.mem_toList, Option.mem_def] at h3
        · exact Or.inr (Or.inr ⟨Bool.not_eq_true _ ▸ hw, Or.inl h3⟩)
        · exact Or.inr (Or.inr ⟨Bool.not_eq_true _ ▸ hw, Or.inr h3⟩)
  cases ast with
  | arr elems =>
    unfold get_messages at h
    rcases List.mem_append.mp h with hh | ht
    · rcases main hh with c | c | c
      · exact Or.inl c
      · exact Or.inr (Or.inl c)
      · exact Or.inr (Or.inr (Or.inl c))
    · obtain ⟨x, hx, hmx⟩ := (mem_get_messages_of_list elems v se sw).mp ht
      exact Or.inr (Or.inr (Or.inr ⟨x, Or.inl ⟨elems, rfl, hx⟩, hmx⟩))
  | obj fields =>
    unfold get_messages at h
    rcases List.mem_append.mp h with hh | ht
    · rcases main hh with c | c | c
      · exact Or.inl c
      · exact Or.inr (Or.inl c)
      · exact Or.inr (Or.inr (Or.inl c))
    · obtain ⟨kv, hkv, hmkv⟩ := (mem_get_messages_of_fields fields v se sw).mp ht
      exact Or.inr (Or.inr (Or.inr ⟨kv.2, Or.inr ⟨fields, kv.1, rfl, hkv⟩, hmkv⟩))
  | null =>
    unfold get_messages at h
    rcases List.mem_append.mp h with hh | ht
    · rcases main hh with c | c | c
      · exact Or.inl c
      · exact Or.inr (Or.inl c)
      · exact Or.inr (Or.inr (Or.inl c))
    · simp at ht
  | bool b =>
    unfold get_messages at h
    rcases List.mem_append.mp h with hh | ht
    · rcases main hh with c | c | c
      · exact Or.inl c
      · exact Or.inr (Or.inl c)
      · exact Or.inr (Or.inr (Or.inl c))
    · simp at ht
  | num i =>
    unfold get_messages at h
    rcases List.mem_append.mp h with hh | ht
    · rcases main hh with c | c | c
      · exact Or.inl c
      · exact Or.inr (Or.inl c)
      · exact Or.inr (Or.inr (Or.inl c))
    · simp at ht
  | str t =>
    unfold get_messages at h
    rcases List.mem_append.mp h with hh | ht
    · rcases main hh with c | c | c
      · exact Or.inl c
      · exact Or.inr (Or.inl c)
      · exact Or.inr (Or.inr (Or.inl c))
    · simp at ht

lemma get_messages_no_sendTransfer_aux :
    ∀ (n : Nat) (ast : Json), sizeOf ast ≤ n → ∀ (v : SemVer)
      (se : List ErrorType) (sw : List WarningType), ErrorType.sendTransfer ∈ se →
      ∀ s, Message.sendTransfer s ∉ get_messages ast v se sw := by
  intro n
  induction n with
  | zero =>
    intro ast h
    exfalso
    cases ast <;> simp at h
  | succ n ih =>
    intro ast hsz v se sw hse s hmem
    have hcontains : se.contains ErrorType.sendTransfer = true :=
      List.elem_eq_true_of_mem hse
    rcases mem_get_messages_cases hmem with ⟨hc, -⟩ | h2 | ⟨-, h3 | h3⟩ | ⟨x, hx, hmx⟩
    · rw [hcontains] at hc
      exact Bool.noConfusion hc
    · obtain ⟨s', hs'⟩ := check_runtime_code_message h2
      exact Message.noConfusion hs'
    · obtain ⟨s', hs'⟩ := check_assembly_origin_message h3
      exact Message.noConfusion hs'
    · obtain ⟨s', hs'⟩ := check_tx_origin_message h3
      exact Message.noConfusion hs'
    · have := hx.sizeOf_lt
      exact ih x (by omega) v se sw hse s hmx

/-- With the `SendTransfer` error kind suppressed, no send/transfer message
appears anywhere in the recursive scan. -/
lemma get_messages_no_sendTransfer {ast : Json} {v : SemVer}
    {se : List ErrorType} {sw : List WarningType}
    (hse : ErrorType.sendTransfer ∈ se) :
    ∀ s, Message.sendTransfer s ∉ get_messages ast v se sw :=
  get_messages_no_sendTransfer_aux (sizeOf ast) ast le_rfl v se sw hse

lemma get_messages_no_txOrigin_aux :
    ∀ (n : Nat) (ast : Json), sizeOf ast ≤ n → ∀ (v : SemVer)
      (se : List ErrorType) (sw : List WarningType), WarningType.txOrigin ∈ sw →
      ∀ s, Message.txOrigin s ∉ get_messages ast v se sw := by
  intro n
  induction n with
  | zero =>
    intro ast h
    exfalso
    cases ast <;> simp at h
  | succ n ih =>
    intro ast hsz v se sw hsw s hmem
    have hcontains : sw.contains WarningType.txOrigin = true :=
      List.elem_eq_true_of_mem hsw
    rcases mem_get_messages_cases hmem with ⟨-, h1⟩ | h2 | ⟨hw, -⟩ | ⟨x, hx, hmx⟩
    · obtain ⟨s', hs'⟩ := check_send_and_transfer_message h1
      exact Message.noConfusion hs'
    · obtain ⟨s', hs'⟩ := check_runtime_code_message h2
      exact Message.noConfusion hs'
    · rw [hcontains] at hw
      exact Bool.noConfusion hw
    · have := hx.sizeOf_lt
      exact ih x (by omega) v se sw hsw s hmx

/-- With the `TxOrigin` warning kind suppressed, no tx-origin message (from
either the textual or the structural check) appears anywhere in the recursive
scan. -/
lemma get_messages_no_txOrigin {ast : Json} {v : SemVer}
    {se : List ErrorType} {sw : List WarningType}
    (hsw : WarningType.txOrigin ∈ sw) :
    ∀ s, Message.txOrigin s ∉ get_messages ast v se sw :=
  get_messages_no_txOrigin_aux (sizeOf ast) ast le_rfl v se sw hsw

/-- The runtime-code check is not gated by either suppression list: whenever
it fires on a node, its message is in the scan result. -/
lemma check_runtime_code_mem_get_messages {ast : Json} {m : Message}
    (v : SemVer) (se : List ErrorType) (sw : List WarningType)
    (h : check_runtime_code ast = some m) :
    m ∈ get_messages ast v se sw := by
  unfold get_messages
  refine List.mem_append.mpr (Or.inl (List.mem_append.mpr
    (Or.inl (List.mem_append.mpr (Or.inr ?_)))))
  simp [h]

/-- The runtime-code pattern in the words of the specification: a
`MemberAccess` named `runtimeCode` whose receiver's type identifier starts
with the magic meta-type marker. -/
def RuntimeCodeShape (ast : Json) : Prop :=
  ast.get "nodeType" = some (.str "MemberAccess") ∧
  ast.get "memberName" = some (.str "runtimeCode") ∧
  ∃ recv tds tid, ast.get "expression" = some recv ∧
    recv.get "typeDescriptions" = some tds ∧
    tds.get "typeIdentifier" = some (.str tid) ∧
    strStartsWith tid "t_magic_meta_type" = true

lemma check_runtime_code_isSome_iff (ast : Json) (srcJ : Json)
    (hsrc : ast.get "src" = some srcJ) :
    (check_runtime_code ast).isSome = true ↔ RuntimeCodeShape ast := by
  cases ast with
  | obj fields =>
    simp only [check_runtime_code, RuntimeCodeShape, get_obj, asObject_obj,
      Option.some_bind] at hsrc ⊢
    simp [Option.isSome_iff_exists, Option.bind_eq_some, asStr_eq_some,
      asObject_eq_some, Option.ite_none_right_eq_some, hsrc, get_obj]
    constructor
    · intro h
      obtain ⟨a, nt, hnt, rfl, mn, hmn, rfl, e3, he3, t4, ht4, tid, htid,
        hstart, -⟩ := h
      exact ⟨hnt, hmn, Json.obj e3, he3, Json.obj t4,
        by simpa [get_obj] using ht4, tid, by simpa [get_obj] using htid, hstart⟩
    · intro h
      obtain ⟨hnt, hmn, recv, hrecv, tds, htds, tid, htid, hstart⟩ := h
      obtain ⟨e3, rfl⟩ := get_obj_of_eq_some htds
      obtain ⟨t4, rfl⟩ := get_obj_of_eq_some htid
      exact ⟨Message.runtimeCode srcJ.asStr, "MemberAccess", hnt, rfl,
        "runtimeCode", hmn, rfl, e3, hrecv, t4, by simpa [get_obj] using htds,
        tid, by simpa [get_obj] using htid, hstart, rfl⟩
  | null => simp [Json.get] at hsrc
  | bool b => simp [Json.get] at hsrc
  | num n => simp [Json.get] at hsrc
  | str s => simp [Json.get] at hsrc
  | arr elems => simp [Json.get] at hsrc

/-- The textual assembly-origin pattern in the words of the specification: an
`InlineAssembly` node whose textual `operations` contain the substring
`origin()`. -/
def AssemblyOriginInlineShape (ast : Json) : Prop :=
  ast.get "nodeType" = some (.str "InlineAssembly") ∧
  ∃ ops, ast.get "operations" = some (.str ops) ∧
    strContainsSubstr ops "origin()" = true

/-- The structural assembly-origin pattern in the words of the specification:
a `YulFunctionCall` node whose `functionName.name` is `origin`. -/
def AssemblyOriginYulShape (ast : Json) : Prop :=
  ast.get "nodeType" = some (.str "YulFunctionCall") ∧
  ∃ fn, ast.get "functionName" = some fn ∧
    fn.get "name" = some (.str "origin")

lemma check_assembly_origin_inline (v : SemVer) (ast : Json) (srcJ : Json)
    (hsrc : ast.get "src" = some srcJ) (hshape : AssemblyOriginInlineShape ast) :
    (check_assembly_origin v ast).isSome = true ↔
      SemVer.lt v ⟨0, 6, 0⟩ = true := by
  obtain ⟨hnt, ops, hops, hcont⟩ := hshape
  obtain ⟨fields, rfl⟩ := get_obj_of_eq_some hnt
  rw [get_obj] at hnt hops hsrc
  by_cases hv : SemVer.lt v ⟨0, 6, 0⟩ = true
  · simp [check_assembly_origin, asObject_obj, hnt, Json.asStr, hv, hops,
      hcont, hsrc]
  · simp [check_assembly_origin, asObject_obj, hnt, Json.asStr, hv, hops, hsrc]

lemma check_assembly_origin_yul (v : SemVer) (ast : Json) (srcJ : Json)
    (hsrc : ast.get "src" = some srcJ) (hshape : AssemblyOriginYulShape ast) :
    (check_assembly_origin v ast).isSome = true ↔
      SemVer.lt v ⟨0, 6, 0⟩ = false := by
  obtain ⟨hnt, fn, hfn, hname⟩ := hshape
  obtain ⟨fields, rfl⟩ := get_obj_of_eq_some hnt
  obtain ⟨ffs, rfl⟩ := get_obj_of_eq_some hname
  rw [get_obj] at hnt hfn hsrc hname
  by_cases hv : SemVer.lt v ⟨0, 6, 0⟩ = true
  · simp [check_assembly_origin, asObject_obj, hnt, Json.asStr, hv]
  · simp [check_assembly_origin, asObject_obj, hnt, Json.asStr, Json.asObject,
      hv, hfn, hname, hsrc]

/-- C7: the send/transfer check fires exactly on a `FunctionCall` whose
`expression` is a `MemberAccess` named `send` or `transfer` whose receiver's
type identifier is `t_address_payable` (any compiler version) or `t_address`
(below 0.5.0); nodes of any other shape produce no message.  When the
`SendTransfer` error kind is suppressed, no send/transfer message appears
anywhere in the scan. -/
theorem scanner_send_transfer_exact :
    (∀ (v : SemVer) (ast : Json) (srcJ : Json), ast.get "src" = some srcJ →
      ((check_send_and_transfer v ast).isSome = true ↔ SendTransferShape v ast)) ∧
    (∀ (ast : Json) (v : SemVer) (se : List ErrorType) (sw : List WarningType),
      ErrorType.sendTransfer ∈ se →
      ∀ s, Message.sendTransfer s ∉ get_messages ast v se sw) :=
  ⟨check_send_and_transfer_isSome_iff,
   fun _ _ _ _ hse => get_messages_no_sendTransfer hse⟩

/-- `addr.transfer(amount)` with `addr : address payable`. -/
def transferNode : Json :=
  .obj [("nodeType", .str "FunctionCall"), ("src", .str "1:2:0"),
    ("expression", .obj [("nodeType", .str "MemberAccess"),
      ("memberName", .str "transfer"),
      ("expression", .obj [("typeDescriptions",
        .obj [("typeIdentifier", .str "t_address_payable")])])])]

/-- An unrelated call `foo.bar()`. -/
def fooBarNode : Json :=
  .obj [("nodeType", .str "FunctionCall"), ("src", .str "0:0:0"),
    ("expression", .obj [("nodeType", .str "MemberAccess"),
      ("memberName", .str "bar"),
      ("expression", .obj [("typeDescriptions",
        .obj [("typeIdentifier", .str "t_contract")])])])]

theorem scanner_send_transfer_exact_witness :
    (check_send_and_transfer ⟨0, 4, 24⟩ transferNode).isSome = true ∧
    (check_send_and_transfer ⟨0, 8, 0⟩ transferNode).isSome = true ∧
    (check_send_and_transfer ⟨0, 8, 0⟩ fooBarNode).isSome = false ∧
    Message.sendTransfer (some "1:2:0") ∉
      get_messages transferNode ⟨0, 4, 24⟩ [ErrorType.sendTransfer] [] := by
  refine ⟨?_, ?_, rfl, ?_⟩
  · exact (scanner_send_transfer_exact.1 ⟨0, 4, 24⟩ transferNode
      (Json.str "1:2:0") rfl).mpr
      ⟨rfl, _, rfl, rfl, Or.inr rfl, _, _, "t_address_payable", rfl, rfl, rfl,
        Or.inl rfl⟩
  · exact (scanner_send_transfer_exact.1 ⟨0, 8, 0⟩ transferNode
      (Json.str "1:2:0") rfl).mpr
      ⟨rfl, _, rfl, rfl, Or.inr rfl, _, _, "t_address_payable", rfl, rfl, rfl,
        Or.inl rfl⟩
  · exact scanner_send_transfer_exact.2 transferNode ⟨0, 4, 24⟩
      [ErrorType.sendTransfer] [] (by decide) (some "1:2:0")

/-- C8: the assembly-origin check fires on an `InlineAssembly` node whose
textual operations contain `origin()` exactly when the compiler version is
below 0.6.0, and on a `YulFunctionCall` node named `origin` exactly when the
version is at or above 0.6.0; both it and the `tx.origin` check emit the same
tx-origin warning class, and no tx-origin message appears anywhere in the scan
when the `TxOrigin` warning kind is suppressed. -/
theorem scanner_assembly_origin_version_gated :
    (∀ (v : SemVer) (ast : Json) (srcJ : Json), ast.get "src" = some srcJ →
      AssemblyOriginInlineShape ast →
      ((check_assembly_origin v ast).isSome = true ↔
        SemVer.lt v ⟨0, 6, 0⟩ = true)) ∧
    (∀ (v : SemVer) (ast : Json) (srcJ : Json), ast.get "src" = some srcJ →
      AssemblyOriginYulShape ast →
      ((check_assembly_origin v ast).isSome = true ↔
        SemVer.lt v ⟨0, 6, 0⟩ = false)) ∧
    (∀ (v : SemVer) (ast : Json) (m : Message),
      check_assembly_origin v ast = some m → ∃ s, m = Message.txOrigin s) ∧
    (∀ (ast : Json) (m : Message),
      check_tx_origin ast = some m → ∃ s, m = Message.txOrigin s) ∧
    (∀ (ast : Json) (v : SemVer) (se : List ErrorType) (sw : List WarningType),
      WarningType.txOrigin ∈ sw →
      ∀ s, Message.txOrigin s ∉ get_messages ast v se sw) :=
  ⟨fun v ast srcJ hsrc hs => check_assembly_origin_inline v ast srcJ hsrc hs,
   fun v ast srcJ hsrc hs => check_assembly_origin_yul v ast srcJ hsrc hs,
   fun _ _ _ h => check_assembly_origin_message h,
   fun _ _ h => check_tx_origin_message h,
   fun _ _ _ _ hsw => get_messages_no_txOrigin hsw⟩

/-- A textual inline-assembly block containing `origin()`. -/
def inlineAsmNode : Json :=
  .obj [("nodeType", .str "InlineAssembly"), ("src", .str "0:0:0"),
    ("operations", .str "let a := origin()")]

/-- A structural Yul call node named `origin`. -/
def yulOriginNode : Json :=
  .obj [("nodeType", .str "YulFunctionCall"), ("src", .str "1:1:0"),
    ("functionName", .obj [("name", .str "origin")])]

theorem scanner_assembly_origin_version_gated_witness :
    (check_assembly_origin ⟨0, 5, 9⟩ inlineAsmNode).isSome = true ∧
    (check_assembly_origin ⟨0, 8, 0⟩ yulOriginNode).isSome = true ∧
    (check_assembly_origin ⟨0, 8, 0⟩ inlineAsmNode).isSome = false := by
  refine ⟨?_, ?_, ?_⟩
  · exact (scanner_assembly_origin_version_gated.1 ⟨0, 5, 9⟩ inlineAsmNode
      (Json.str "0:0:0") rfl ⟨rfl, "let a := origin()", rfl, by decide⟩).mpr
      (by decide)
  · exact (scanner_assembly_origin_version_gated.2.1 ⟨0, 8, 0⟩ yulOriginNode
      (Json.str "1:1:0") rfl ⟨rfl, _, rfl, rfl⟩).mpr (by decide)
  · have h := scanner_assembly_origin_version_gated.1 ⟨0, 8, 0⟩ inlineAsmNode
      (Json.str "0:0:0") rfl ⟨rfl, "let a := origin()", rfl, by decide⟩
    cases hc : (check_assembly_origin ⟨0, 8, 0⟩ inlineAsmNode).isSome
    · rfl
    · exact absurd (h.mp hc) (by decide)

/-- C9: the runtime-code check fires exactly on a `MemberAccess` named
`runtimeCode` whose receiver's type identifier starts with the magic
meta-type marker; it is run by `get_messages` unconditionally, so its message
is present no matter what the suppression lists contain, and a non-matching
node simply yields `none`. -/
theorem scanner_runtime_code_unsuppressible :
    (∀ (ast : Json) (srcJ : Json), ast.get "src" = some srcJ →
      ((check_runtime_code ast).isSome = true ↔ RuntimeCodeShape ast)) ∧
    (∀ (ast : Json) (v : SemVer) (se : List ErrorType) (sw : List WarningType)
      (m : Message), check_runtime_code ast = some m →
      m ∈ get_messages ast v se sw) :=
  ⟨check_runtime_code_isSome_iff,
   fun _ v se sw _ h => check_runtime_code_mem_get_messages v se sw h⟩

/-- `C.runtimeCode` on a contract meta type. -/
def runtimeCodeNode : Json :=
  .obj [("nodeType", .str "MemberAccess"), ("memberName", .str "runtimeCode"),
    ("src", .str "3:4:0"),
    ("expression", .obj [("typeDescriptions",
      .obj [("typeIdentifier", .str "t_magic_meta_type_t_contract")])])]

theorem scanner_runtime_code_unsuppressible_witness :
    (check_runtime_code runtimeCodeNode).isSome = true ∧
    Message.runtimeCode (some "3:4:0") ∈
      get_messages runtimeCodeNode ⟨0, 8, 0⟩ [ErrorType.sendTransfer]
        [WarningType.txOrigin] ∧
    (check_runtime_code fooBarNode).isSome = false := by
  refine ⟨?_, ?_, rfl⟩
  · exact (scanner_runtime_code_unsuppressible.1 runtimeCodeNode
      (Json.str "3:4:0") rfl).mpr
      ⟨rfl, rfl, _, _, "t_magic_meta_type_t_contract", rfl, rfl, rfl, rfl⟩
  · exact scanner_runtime_code_unsuppressible.2 runtimeCodeNode ⟨0, 8, 0⟩
      [ErrorType.sendTransfer] [WarningType.txOrigin]
      (Message.runtimeCode (some "3:4:0")) (by rfl)

/-- A node that contributes to `last_contract_name`, in the words of the
specification: a `ContractDefinition` node carrying a string `name`. -/
def IsNamedContract (node : Json) (name : String) : Prop :=
  node.get "nodeType" = some (.str "ContractDefinition") ∧
  node.get "name" = some (.str name)

lemma contractName_eq_some_iff (node : Json) (name : String) :
    contractName node = some name ↔ IsNamedContract node name := by
  constructor
  · intro h
    unfold contractName at h
    split at h
    next heq =>
      rw [Option.bind_eq_some] at heq
      obtain ⟨j, hj, hjs⟩ := heq
      rw [asStr_eq_some] at hjs
      subst hjs
      rw [Option.bind_eq_some] at h
      obtain ⟨nj, hnj, hnjs⟩ := h
      rw [asStr_eq_some] at hnjs
      subst hnjs
      exact ⟨hj, hnj⟩
    next => exact Option.noConfusion h
  · rintro ⟨h1, h2⟩
    simp [contractName, h1, h2, Json.asStr]

lemma contractName_eq_none_of_not_named {node : Json}
    (h : ∀ nm, ¬ IsNamedContract node nm) : contractName node = none := by
  cases hc : contractName node with
  | none => rfl
  | some nm => exact absurd ((contractName_eq_some_iff node nm).mp hc) (h nm)

/-- C10: `last_contract_name` errors when the AST is absent, when the AST has
no `nodes` array, and when that array holds no `ContractDefinition` with a
string name; otherwise it returns the name of the last such node, skipping
`ContractDefinition` nodes without a string name and every other node
kind. -/
theorem last_contract_name_cases (s : Source) :
    (s.ast = none → last_contract_name s = .error "The AST is empty") ∧
    (∀ ast, s.ast = some ast → (ast.get "nodes").bind Json.asArray = none →
      last_contract_name s =
        .error "The last contract cannot be found in an empty list of nodes") ∧
    (∀ ast nodes, s.ast = some ast →
      (ast.get "nodes").bind Json.asArray = some nodes →
      (∀ node ∈ nodes, ∀ nm, ¬ IsNamedContract node nm) →
      last_contract_name s = .error "The last contract not found in the AST") ∧
    (∀ (ast : Json) (nodes : List Json) (i : Nat) (node : Json) (nm : String),
      s.ast = some ast →
      (ast.get "nodes").bind Json.asArray = some nodes →
      nodes[i]? = some node → IsNamedContract node nm →
      (∀ (j : Nat) (node' : Json), i < j → nodes[j]? = some node' →
        ∀ nm', ¬ IsNamedContract node' nm') →
      last_contract_name s = .ok nm) := by
  refine ⟨?_, ?_, ?_, ?_⟩
  · intro h
    simp [last_contract_name, h]
  · intro ast hast hnone
    simp [last_contract_name, hast, hnone]
  · intro ast nodes hast hnodes hnone
    have hfm : nodes.filterMap contractName = [] :=
      List.filterMap_eq_nil_iff.mpr
        (fun a ha => contractName_eq_none_of_not_named (hnone a ha))
    simp [last_contract_name, hast, hnodes, hfm]
  · intro ast nodes i node nm hast hnodes hnode hnamed hlast
    have hi : i < nodes.length := by
      by_contra hge
      rw [List.getElem?_eq_none_iff.mpr (Nat.le_of_not_lt hge)] at hnode
      exact Option.noConfusion hnode
    have htake : nodes.take (i + 1) = nodes.take i ++ [node] := by
      rw [List.take_succ, hnode]
      rfl
    have hdrop : (nodes.drop (i + 1)).filterMap contractName = [] := by
      refine List.filterMap_eq_nil_iff.mpr (fun a ha => ?_)
      obtain ⟨k, hk⟩ := List.mem_iff_getElem?.mp ha
      rw [List.getElem?_drop] at hk
      exact contractName_eq_none_of_not_named
        (fun nm' => hlast (i + 1 + k) a (by omega) hk nm')
    have hnodem : contractName node = some nm :=
      (contractName_eq_some_iff node nm).mpr hnamed
    have hfm : nodes.filterMap contractName =
        (nodes.take i).filterMap contractName ++ [nm] := by
      conv_lhs => rw [(List.take_append_drop (i + 1) nodes).symm]
      rw [List.filterMap_append, htake, List.filterMap_append, hdrop]
      simp [hnodem]
    simp [last_contract_name, hast, hnodes, hfm, List.getLast?_concat]

/-- `contract A { }` as a syntax-tree node. -/
def contractNodeA : Json :=
  .obj [("nodeType", .str "ContractDefinition"), ("name", .str "A")]

/-- `contract B { }` as a syntax-tree node. -/
def contractNodeB : Json :=
  .obj [("nodeType", .str "ContractDefinition"), ("name", .str "B")]

/-- A source whose AST lists contract `A`, a stray string, contract `B` and a
pragma node, in that order. -/
def sourceExample : Source :=
  { id := 0,
    ast := some (.obj [("nodes", .arr [contractNodeA, .str "pragma",
      contractNodeB, .obj [("nodeType", .str "PragmaDirective")]])]) }

theorem last_contract_name_cases_witness :
    last_contract_name { id := 0, ast := none } = .error "The AST is empty" ∧
    last_contract_name sourceExample = .ok "B" := by
  constructor
  · exact (last_contract_name_cases { id := 0, ast := none }).1 rfl
  · refine (last_contract_name_cases sourceExample).2.2.2 _ _ 2 contractNodeB
      "B" rfl rfl rfl ⟨rfl, rfl⟩ ?_
    intro j node' hj hget nm' hnc
    have hj' : j = 3 ∨ 4 ≤ j := by omega
    rcases hj' with rfl | hj4
    · have hnode' : node' = Json.obj [("nodeType", .str "PragmaDirective")] := by
        have := hget.symm
        simpa using this
      subst hnode'
      have h1 := hnc.1
      simp [Json.get] at h1
    · have hlen : ([contractNodeA, .str "pragma", contractNodeB,
          .obj [("nodeType", .str "PragmaDirective")]] : List Json).length ≤ j := by
        simp
        omega
      rw [List.getElem?_eq_none_iff.mpr hlen] at hget
      exact Option.noConfusion hget
